import Mathlib

/-!
Verification of the CAREamics patch-extraction / dataset-streaming core.

The development shallowly embeds `src/careamics_restoration/dataset/dataset.py`
(class `TiffDataset`): file discovery (`list_files`), construction
(`__init__`), axis canonicalization (`fix_axes`), file reading and shape
validation (`read_image`), worker partitioning (`iterate_files`) and the
statistics estimator (`calculate_mean_and_std`).  Arrays are embedded at the
shape level (a `List Nat` of extents) or as functions from multi-indices to
values; Python floats are embedded as `ℚ`; fallible code returns `Except`.

The tiling module (`careamics_restoration.dataset.tiling`, providing
`extract_patches_sequential` and `extract_patches_predict`) and the stitching
utilities (`careamics_restoration.dataset.dataset_utils`) are imported by
`dataset.py` but are not part of the repository snapshot; those definitions
are modelled from the specification and are marked as such.
-/

/-- Error raised by `TiffDataset.list_files` when recursive discovery finds no
tiff file (a Python `ValueError`, "No tiff files found in ..."). -/
inductive FileErr where
  | noInputFiles
deriving DecidableEq

/-- Error raised during iteration when a member lookup fails (a Python
`AttributeError`). -/
inductive IterErr where
  | attributeError
deriving DecidableEq

/-- Exception classes caught by the `try`/`except` around `tifffile.imread`
in `TiffDataset.read_image` (dataset.py lines 125-129): `ValueError` for a
corrupt/undecodable file, `OSError` for an I/O failure. -/
inductive ReadExc where
  | valueError
  | osError
deriving DecidableEq

/-- Errors raised by the shape checks of `TiffDataset.read_image`
(dataset.py lines 134-144); both are Python `ValueError`s:
`dimMismatch` is "Incorrect data dimensions" and `axesLenMismatch` is
"Incorrect axes length" (the declared axis descriptor is inconsistent with
the array's actual dimensionality). -/
inductive ShapeErr where
  | dimMismatch
  | axesLenMismatch
deriving DecidableEq

/-- Embedding of `TiffDataset.list_files` (dataset.py lines 68-74):
`files = sorted(Path(self.data_path).rglob("*.tif*"))`, then raise if the
list is empty.  The recursive glob is abstracted as the list `found` of
discovered paths; `sorted` is `List.mergeSort`. -/
def list_files (found : List String) : Except FileErr (List String) :=
  if (found.mergeSort (fun a b => decide (a ≤ b))).length = 0 then
    Except.error FileErr.noInputFiles
  else
    Except.ok (found.mergeSort (fun a b => decide (a ≤ b)))

/-- Python truthiness of an optional float, as used by
`if not mean or not std:` (dataset.py line 60): `None` and `0.0` are falsy,
every other float is truthy. -/
def pyTruthy (v : Option ℚ) : Bool :=
  match v with
  | none => false
  | some x => decide (x ≠ 0)

/-- The attributes stored on a freshly constructed `TiffDataset`:
`files` (from `list_files`), and `mean`/`std`, which `__init__` assigns
only inside the recomputation branch (`none` models a missing attribute). -/
structure InitResult where
  files : List String
  meanAttr : Option ℚ
  stdAttr : Option ℚ
deriving DecidableEq

/-- Observable side effects of `TiffDataset.__init__`: how many files were
read and how many times `calculate_mean_and_std` was invoked. -/
structure InitTrace where
  filesRead : Nat
  statsRuns : Nat
deriving DecidableEq

/-- Embedding of `TiffDataset.__init__` (dataset.py lines 53-66): list the
files (raising `noInputFiles` on an empty match, before anything is read),
then run `calculate_mean_and_std` unless both `mean` and `std` are truthy.
The estimator's output is abstracted as the pair `est`; when it runs it
reads every listed file once. -/
def tiffDataset_init (found : List String) (mean std : Option ℚ) (est : ℚ × ℚ) :
    Except FileErr InitResult × InitTrace :=
  match list_files found with
  | Except.error e => (Except.error e, ⟨0, 0⟩)
  | Except.ok files =>
      if !pyTruthy mean || !pyTruthy std then
        (Except.ok ⟨files, some est.1, some est.2⟩, ⟨files.length, 1⟩)
      else
        (Except.ok ⟨files, none, none⟩, ⟨0, 0⟩)

/-- Modelled from the spec: `normalize` from `careamics_restoration.utils`
(imported by dataset.py but absent from the snapshot) computes
`(patch - mean) / std`.  The patch normalization step of `__iter__`
(dataset.py line 196) first looks up `self.mean` and `self.std`; a missing
attribute raises `AttributeError`. -/
def normalize_patch (meanAttr stdAttr : Option ℚ) (patch : ℚ) : Except IterErr ℚ :=
  match meanAttr, stdAttr with
  | some m, some s => Except.ok ((patch - m) / s)
  | _, _ => Except.error IterErr.attributeError

/-- Member names resolvable on a `TiffDataset` instance: the attributes
assigned in `__init__` (dataset.py lines 53-66) plus the methods defined on
the class. -/
def tiffDatasetMembers : List String :=
  ["data_path", "axes", "patch_transform", "files", "mean", "std",
   "patch_size", "patch_overlap", "patch_extraction_method",
   "list_files", "calculate_mean_and_std", "fix_axes", "read_image",
   "iterate_files"]

/-- The member name the statistics loop iterates over:
`for sample in tqdm(self.iterate_path, ...)` (dataset.py line 80). -/
def statsIterSource : String := "iterate_path"

/-- Embedding of `TiffDataset.calculate_mean_and_std` (dataset.py lines
76-91).  The loop source is the attribute lookup `self.iterate_path`, which
must resolve against the instance's members, else Python raises
`AttributeError`.  If it resolves, the method sums per-image means and
per-image standard deviations (`perImage`) and divides each sum by the
number of images. -/
def calculate_mean_and_std (members : List String) (perImage : List (ℚ × ℚ)) :
    Except IterErr (ℚ × ℚ) :=
  if statsIterSource ∈ members then
    Except.ok ((perImage.map Prod.fst).sum / (perImage.length : ℚ),
               (perImage.map Prod.snd).sum / (perImage.length : ℚ))
  else
    Except.error IterErr.attributeError

/-- `"Z"`-removal on an axis string, embedding `axes.replace("Z", "")`
(dataset.py line 97). -/
def dropZ (s : List Char) : List Char := s.filter (fun c => decide (c ≠ 'Z'))

/-- `"YX"`-removal on an axis string, embedding `....replace("YX", "")`
(dataset.py line 97): left-to-right non-overlapping replacement by the
empty string. -/
def dropYX : List Char → List Char
  | [] => []
  | 'Y' :: 'X' :: rest => dropYX rest
  | c :: rest => c :: dropYX rest

/-- Shape-level embedding of `TiffDataset.fix_axes` (dataset.py lines
94-107) for ordinary (non-object-dtype) arrays.  If the axis descriptor
contains `S` or `T`, the leading `new_axes_len` axes are merged by
`sample.reshape(-1, *sample.shape[new_axes_len:])`; otherwise a single
leading axis is synthesized by `np.expand_dims(sample, axis=0)`. -/
def fix_axes (axes : List Char) (shape : List Nat) : List Nat :=
  if axes.contains 'S' || axes.contains 'T' then
    ((shape.take (dropYX (dropZ axes)).length).foldl (fun a b => a * b) 1) ::
      shape.drop (dropYX (dropZ axes)).length
  else
    1 :: shape

/-- `np.squeeze` at the shape level: remove every axis of extent 1
(dataset.py line 131). -/
def npSqueeze (shape : List Nat) : List Nat := shape.filter (fun d => decide (d ≠ 1))

/-- Shape-level embedding of the validation pipeline of
`TiffDataset.read_image` (dataset.py lines 131-148): squeeze, then reject a
squeezed rank outside 2..4, then reject when the axis-descriptor length
differs from the squeezed rank, then canonicalize with `fix_axes`. -/
def read_image_shape (axes : List Char) (shape : List Nat) : Except ShapeErr (List Nat) :=
  if (npSqueeze shape).length < 2 ∨ 4 < (npSqueeze shape).length then
    Except.error ShapeErr.dimMismatch
  else if axes.length ≠ (npSqueeze shape).length then
    Except.error ShapeErr.axesLenMismatch
  else
    Except.ok (fix_axes axes (npSqueeze shape))

/-- Embedding of the worker partitioning of `TiffDataset.iterate_files`
(dataset.py lines 160-165): enumerate the file list and keep exactly the
entries whose index `i` satisfies `i % num_workers == worker_id`.  The
ambient `torch.utils.data.get_worker_info()` state is passed explicitly as
`numWorkers` and `workerId`. -/
def iterate_files_selection {α : Type} (files : List α) (numWorkers workerId : Nat) :
    List (Nat × α) :=
  files.enum.filter (fun p => p.1 % numWorkers == workerId)

/-- Outcome of the guarded `tifffile.imread` call in
`TiffDataset.read_image` (dataset.py lines 125-129): the result that is
returned or re-raised, and whether `logging.exception` ran. -/
structure ReadAttempt (α : Type) where
  result : Except ReadExc α
  logged : Bool

/-- Embedding of the `try`/`except` around `tifffile.imread` (dataset.py
lines 125-129): on `ValueError` or `OSError` the exception is logged and
then re-raised unchanged (`raise e`); on success nothing is logged. -/
def read_image_try {α : Type} (r : Except ReadExc α) : ReadAttempt α :=
  match r with
  | Except.error e => ⟨Except.error e, true⟩
  | Except.ok v => ⟨Except.ok v, false⟩

/-- Iteration over a worker's files with the guarded read of
`read_image_try`: the first failing read aborts the whole iteration with
that error; successful reads are collected in order. -/
def iterate_files_reads {α β : Type} (read : β → Except ReadExc α) :
    List β → Except ReadExc (List α)
  | [] => Except.ok []
  | f :: rest =>
      match (read_image_try (read f)).result with
      | Except.error e => Except.error e
      | Except.ok v => Except.map (fun l => v :: l) (iterate_files_reads read rest)

/-- Modelled from the spec: number of sequential tiles along one axis of
extent `n` with patch extent `k` is `ceil(n / k)` (spec section 4.3,
`extract_patches_sequential` of `careamics_restoration.dataset.tiling`,
which is absent from the snapshot). -/
def numTiles (n k : Nat) : Nat := (n + k - 1) / k

/-- Modelled from the spec: the start of the `i`-th sequential tile along an
axis of extent `n` with patch extent `k`: step equal to the patch extent,
with the final tile shifted left so it stays inside the image
(spec section 4.3). -/
def seqStart (n k i : Nat) : Nat := min (i * k) (n - k)

/-- Modelled from the spec: the sequential tiles of one axis, as
half-open intervals `(lo, lo + k)`. -/
def seqTiles1 (n k : Nat) : List (Nat × Nat) :=
  (List.range (numTiles n k)).map (fun i => (seqStart n k i, seqStart n k i + k))

/-- Cartesian product of per-axis choices, one choice per axis. -/
def axisProd {β : Type} : List (List β) → List (List β)
  | [] => [[]]
  | xs :: rest => xs.flatMap (fun x => (axisProd rest).map (fun t => x :: t))

/-- Per-axis sequential tile lists for a spatial shape and patch size. -/
def seqTileLists : List Nat → List Nat → List (List (Nat × Nat))
  | n :: ns, k :: ks => seqTiles1 n k :: seqTileLists ns ks
  | _, _ => []

/-- Modelled from the spec: sequential-mode patch extraction
(`extract_patches_sequential` of `careamics_restoration.dataset.tiling`,
absent from the snapshot; spec section 4.3): every combination of a sample
index and one spatial tile per spatial axis, the channel axis being carried
whole. -/
def extract_patches_sequential (numSamples : Nat) (shape ks : List Nat) :
    List (Nat × List (Nat × Nat)) :=
  (List.range numSamples).flatMap
    (fun s => (axisProd (seqTileLists shape ks)).map (fun t => (s, t)))

/-- The array shape of one extracted patch: the full channel extent followed
by the per-axis tile extents. -/
def patchShape (channels : Nat) (tile : List (Nat × Nat)) : List Nat :=
  channels :: tile.map (fun ab => ab.2 - ab.1)

/-- Whether the spatial point `p` lies in the (multi-axis) tile: pointwise
`lo ≤ x < hi`, with matching dimensionality. -/
def inTile : List (Nat × Nat) → List Nat → Bool
  | [], [] => true
  | ab :: ts, x :: xs => (decide (ab.1 ≤ x) && decide (x < ab.2)) && inTile ts xs
  | _, _ => false

/-- Validity of a patch specification against a spatial shape: one entry per
spatial axis with `1 ≤ k ≤ n` (spec section 4.3). -/
def validSpec : List Nat → List Nat → Bool
  | [], [] => true
  | n :: ns, k :: ks => (decide (1 ≤ k) && decide (k ≤ n)) && validSpec ns ks
  | _, _ => false

/-- Whether a spatial point lies inside the image: pointwise `x < n`. -/
def inBounds : List Nat → List Nat → Bool
  | [], [] => true
  | x :: xs, n :: ns => decide (x < n) && inBounds xs ns
  | _, _ => false

/-- Validity of an overlap specification against a patch specification: one
entry per spatial axis with `0 ≤ o < k` (spec sections 3 and 4.3). -/
def overlapOk : List Nat → List Nat → Bool
  | [], [] => true
  | o :: os, k :: ks => decide (o < k) && overlapOk os ks
  | _, _ => false

/-- Modelled from the spec: one predict-mode tile of one axis.  The patch
`[patchLo, patchHi)` is the sequential tile padded by the overlap on its
interior-facing sides, clamped at the image boundary; the interior
`[intLo, intHi)` is the part the Stitcher keeps after cropping the
recorded margins (spec sections 4.3 and 4.4). -/
structure Tile1 where
  patchLo : Nat
  patchHi : Nat
  intLo : Nat
  intHi : Nat
deriving DecidableEq

/-- Modelled from the spec: the interior boundaries of predict-mode tiling
along one axis: boundary 0 is the left image edge, boundary `numTiles` the
right image edge, and the boundary between consecutive tiles is the start
of the later tile (so consecutive interiors tile the axis exactly once,
spec section 4.4). -/
def bnd (n k i : Nat) : Nat :=
  if i = 0 then 0 else if numTiles n k ≤ i then n else seqStart n k i

/-- Modelled from the spec: predict-mode tiles of one axis
(`extract_patches_predict` of `careamics_restoration.dataset.tiling`,
absent from the snapshot; spec section 4.3): sequential tiles padded by the
overlap `o` on interior-facing sides (clamped at the image boundary), each
carrying the crop boundaries of its interior. -/
def predictTiles1 (n k o : Nat) : List Tile1 :=
  (List.range (numTiles n k)).map (fun i =>
    { patchLo := seqStart n k i - (if i = 0 then 0 else o)
      patchHi := min (seqStart n k i + k + (if i + 1 = numTiles n k then 0 else o)) n
      intLo := bnd n k i
      intHi := bnd n k (i + 1) })

/-- Per-axis predict-mode tile lists for a spatial shape, patch size and
overlap. -/
def predTileLists : List Nat → List Nat → List Nat → List (List Tile1)
  | n :: ns, k :: ks, o :: os => predictTiles1 n k o :: predTileLists ns ks os
  | _, _, _ => []

/-- Whether coordinate `x` lies in the interior of the 1-D tile. -/
def hits1 (x : Nat) (ti : Tile1) : Bool :=
  decide (ti.intLo ≤ x) && decide (x < ti.intHi)

/-- Whether the spatial point `p` lies in the interior of the multi-axis
tile (pointwise, with matching dimensionality). -/
def inInterior : List Tile1 → List Nat → Bool
  | [], [] => true
  | ti :: ts, x :: xs => hits1 x ti && inInterior ts xs
  | _, _ => false

/-- Modelled from the spec: a predict-mode patch: its per-axis tile
geometry, and its data in patch-local coordinates (spec section 3,
"Patch"). -/
structure PredPatch (α : Type) where
  tiles : List Tile1
  data : List Nat → α

/-- Modelled from the spec: predict-mode patch extraction
(spec section 4.3): one patch per combination of per-axis predict tiles,
whose data is the image restricted to the patch box, stored in
patch-local coordinates. -/
def extract_patches_predict {α : Type} (image : List Nat → α) (shape ks os : List Nat) :
    List (PredPatch α) :=
  (axisProd (predTileLists shape ks os)).map (fun ts =>
    ⟨ts, fun q => image (List.zipWith (fun ti l => ti.patchLo + l) ts q)⟩)

/-- Patch-local coordinates of the global point `p` inside the patch box. -/
def localIndex (ts : List Tile1) (p : List Nat) : List Nat :=
  List.zipWith (fun ti x => x - ti.patchLo) ts p

/-- Modelled from the spec: one Stitcher write (spec section 4.4): crop the
patch to its recorded interior and write the remaining values into the
canvas at their recorded coordinates. -/
def writePatch {α : Type} (canvas : List Nat → Option α) (pt : PredPatch α) :
    List Nat → Option α :=
  fun p =>
    if inInterior pt.tiles p = true then some (pt.data (localIndex pt.tiles p))
    else canvas p

/-- Modelled from the spec: the Stitcher (spec section 4.4): start from an
empty canvas and write every patch's cropped interior into it. -/
def stitch {α : Type} (pts : List (PredPatch α)) : List Nat → Option α :=
  pts.foldl writePatch (fun _ => none)

/-- How many of the given patches write to canvas pixel `p` during
stitching. -/
def writersCount {α : Type} (pts : List (PredPatch α)) (p : List Nat) : Nat :=
  pts.countP (fun pt => inInterior pt.tiles p)

/-- A list of half-open intervals laid end to end from `lo` to `hi`: each
interval is nonempty and starts where the previous one stopped. -/
def chained : Nat → List (Nat × Nat) → Nat → Prop
  | lo, [], hi => lo = hi
  | lo, ab :: rest, hi => lo = ab.1 ∧ ab.1 < ab.2 ∧ chained ab.2 rest hi

theorem list_files_ok (found : List String) (h : found ≠ []) :
    list_files found = Except.ok (found.mergeSort (fun a b => decide (a ≤ b))) := by
  unfold list_files
  rw [if_neg]
  rw [List.length_mergeSort, List.length_eq_zero]
  exact h

/-- Claim C4: a data path under which discovery finds no tiff file makes
dataset construction fail with the no-input-files error before any file is
read and before statistics estimation starts; a path with at least one tiff
file yields the discovered files sorted by path. -/
theorem tiff_dataset_init_files (found : List String) :
    (found = [] → ∀ mean std est,
        tiffDataset_init found mean std est =
          (Except.error FileErr.noInputFiles, ⟨0, 0⟩)) ∧
    (found ≠ [] →
        list_files found = Except.ok (found.mergeSort (fun a b => decide (a ≤ b))) ∧
        List.Sorted (fun a b => a ≤ b) (found.mergeSort (fun a b => decide (a ≤ b))) ∧
        (found.mergeSort (fun a b => decide (a ≤ b))).Perm found ∧
        ∀ mean std est, ∃ r tr,
          tiffDataset_init found mean std est = (Except.ok r, tr) ∧
          r.files = found.mergeSort (fun a b => decide (a ≤ b))) := by
  constructor
  · intro hf mean std est
    subst hf
    simp [tiffDataset_init, list_files]
  · intro hf
    refine ⟨list_files_ok found hf, List.sorted_mergeSort' found, List.mergeSort_perm found _, ?_⟩
    intro mean std est
    by_cases hb : (!pyTruthy mean || !pyTruthy std) = true
    · refine ⟨⟨found.mergeSort (fun a b => decide (a ≤ b)), some est.1, some est.2⟩,
        ⟨(found.mergeSort (fun a b => decide (a ≤ b))).length, 1⟩, ?_, rfl⟩
      simp [tiffDataset_init, list_files_ok found hf, hb]
    · refine ⟨⟨found.mergeSort (fun a b => decide (a ≤ b)), none, none⟩, ⟨0, 0⟩, ?_, rfl⟩
      simp only [tiffDataset_init, list_files_ok found hf]
      rw [if_neg hb]

theorem tiff_dataset_init_files_witness :
    (tiffDataset_init [] (some 1) (some 1) (0, 0) =
      (Except.error FileErr.noInputFiles, ⟨0, 0⟩)) ∧
    (list_files ["b.tif", "a.tif"] =
        Except.ok (["b.tif", "a.tif"].mergeSort (fun a b => decide (a ≤ b))) ∧
      List.Sorted (fun a b => a ≤ b)
        (["b.tif", "a.tif"].mergeSort (fun a b => decide (a ≤ b))) ∧
      (["b.tif", "a.tif"].mergeSort (fun a b => decide (a ≤ b))).Perm
        ["b.tif", "a.tif"] ∧
      ∃ r tr, tiffDataset_init ["b.tif", "a.tif"] none none (0, 0) = (Except.ok r, tr) ∧
        r.files = ["b.tif", "a.tif"].mergeSort (fun a b => decide (a ≤ b))) := by
  constructor
  · exact (tiff_dataset_init_files []).1 rfl (some 1) (some 1) (0, 0)
  · obtain ⟨h1, h2, h3, h4⟩ := (tiff_dataset_init_files ["b.tif", "a.tif"]).2 (by decide)
    exact ⟨h1, h2, h3, h4 none none (0, 0)⟩

/-- Claim C7 counterexample: both `mean` and `std` are supplied externally
(`mean = 0.0`, `std = 1.0`), yet the statistics estimator is invoked. -/
theorem stats_skip_zero_mean_cex :
    (tiffDataset_init ["img.tif"] (some 0) (some 1) (5, 7)).2.statsRuns = 1 := by
  have h := list_files_ok ["img.tif"] (by decide)
  unfold tiffDataset_init
  rw [h]
  norm_num [pyTruthy, List.mergeSort_singleton]

/-- Claim C7 (amended): the statistics-estimation step of construction is
skipped exactly when both `mean` and `std` are supplied and truthy
(non-`None`, non-zero); otherwise it runs exactly once, during
construction, before any patch can be yielded. -/
theorem stats_skip_iff_truthy (found : List String) (h : found ≠ [])
    (mean std : Option ℚ) (est : ℚ × ℚ) :
    (tiffDataset_init found mean std est).2.statsRuns =
      if pyTruthy mean && pyTruthy std then 0 else 1 := by
  unfold tiffDataset_init
  rw [list_files_ok found h]
  by_cases hm : pyTruthy mean = true
  · by_cases hs : pyTruthy std = true
    · simp [hm, hs]
    · simp [hm, Bool.eq_false_iff.mpr hs]
  · simp [Bool.eq_false_iff.mpr hm]

theorem stats_skip_iff_truthy_witness :
    (tiffDataset_init ["img.tif"] (some 2) (some 3) (0, 0)).2.statsRuns =
      if pyTruthy (some 2) && pyTruthy (some 3) then 0 else 1 :=
  stats_skip_iff_truthy ["img.tif"] (by decide) (some 2) (some 3) (0, 0)

/-- Claim C9: when both `mean` and `std` are supplied and truthy, the
constructor stores neither value (the attributes are assigned only in the
recomputation branch), so every normalization step of iteration fails with
`AttributeError` before the first patch is yielded; conversely a supplied
mean of `0.0` with a valid std still triggers full recomputation of both
statistics. -/
theorem init_truthy_stats_not_stored (m s : ℚ) (hm : m ≠ 0) (hs : s ≠ 0)
    (found : List String) (hf : found ≠ []) (est : ℚ × ℚ) :
    (∃ r tr, tiffDataset_init found (some m) (some s) est = (Except.ok r, tr) ∧
        r.meanAttr = none ∧ r.stdAttr = none ∧
        ∀ patch, normalize_patch r.meanAttr r.stdAttr patch =
          Except.error IterErr.attributeError) ∧
    (tiffDataset_init found (some 0) (some s) est).2.statsRuns = 1 := by
  constructor
  · refine ⟨⟨found.mergeSort (fun a b => decide (a ≤ b)), none, none⟩, ⟨0, 0⟩, ?_, rfl, rfl, ?_⟩
    · unfold tiffDataset_init
      rw [list_files_ok found hf]
      have hmt : pyTruthy (some m) = true := by simp [pyTruthy, hm]
      have hst : pyTruthy (some s) = true := by simp [pyTruthy, hs]
      simp [hmt, hst]
    · intro patch
      rfl
  · unfold tiffDataset_init
    rw [list_files_ok found hf]
    simp [pyTruthy]

theorem init_truthy_stats_not_stored_witness :
    (∃ r tr, tiffDataset_init ["img.tif"] (some 2) (some 3) (0, 0) = (Except.ok r, tr) ∧
        r.meanAttr = none ∧ r.stdAttr = none ∧
        ∀ patch, normalize_patch r.meanAttr r.stdAttr patch =
          Except.error IterErr.attributeError) ∧
    (tiffDataset_init ["img.tif"] (some 0) (some 3) (0, 0)).2.statsRuns = 1 :=
  init_truthy_stats_not_stored 2 3 (by decide) (by decide) ["img.tif"] (by decide) (0, 0)

/-- Claim C5: per-worker file iteration selects exactly the files whose
index `i` satisfies `i % numWorkers == workerId`, so distinct workers'
subsets are disjoint and every file is handled by exactly one worker. -/
theorem iterate_files_worker_partition {α : Type} (files : List α)
    (w id1 id2 : Nat) (hw : 0 < w) (h1 : id1 < w) (h2 : id2 < w) (hne : id1 ≠ id2) :
    (∀ i a, (i, a) ∈ iterate_files_selection files w id1 ↔
        ((i, a) ∈ files.enum ∧ i % w = id1)) ∧
    (∀ i a, ¬((i, a) ∈ iterate_files_selection files w id1 ∧
        (i, a) ∈ iterate_files_selection files w id2)) ∧
    (∀ i a, (i, a) ∈ files.enum →
        ∃! wid, wid < w ∧ (i, a) ∈ iterate_files_selection files w wid) := by
  have hmem : ∀ (wid i : Nat) (a : α), (i, a) ∈ iterate_files_selection files w wid ↔
      ((i, a) ∈ files.enum ∧ i % w = wid) := by
    intro wid i a
    unfold iterate_files_selection
    rw [List.mem_filter]
    simp
  refine ⟨fun i a => hmem id1 i a, ?_, ?_⟩
  · intro i a hc
    obtain ⟨ha, hb⟩ := hc
    have e1 := ((hmem id1 i a).mp ha).2
    have e2 := ((hmem id2 i a).mp hb).2
    exact hne (e1 ▸ e2 ▸ rfl)
  · intro i a hin
    refine ⟨i % w, ⟨Nat.mod_lt i hw, (hmem (i % w) i a).mpr ⟨hin, rfl⟩⟩, ?_⟩
    intro y hy
    exact (((hmem y i a).mp hy.2).2).symm

theorem iterate_files_worker_partition_witness :
    (∀ i a, (i, a) ∈ iterate_files_selection ["a.tif", "b.tif", "c.tif"] 2 0 ↔
        ((i, a) ∈ (["a.tif", "b.tif", "c.tif"] : List String).enum ∧ i % 2 = 0)) ∧
    (∀ i a, ¬((i, a) ∈ iterate_files_selection ["a.tif", "b.tif", "c.tif"] 2 0 ∧
        (i, a) ∈ iterate_files_selection ["a.tif", "b.tif", "c.tif"] 2 1)) ∧
    (∀ i a, (i, a) ∈ (["a.tif", "b.tif", "c.tif"] : List String).enum →
        ∃! wid, wid < 2 ∧ (i, a) ∈ iterate_files_selection ["a.tif", "b.tif", "c.tif"] 2 wid) :=
  iterate_files_worker_partition ["a.tif", "b.tif", "c.tif"] 2 0 1
    (by decide) (by decide) (by decide) (by decide)

theorem iterate_reads_abort {α β : Type} (read : β → Except ReadExc α) (f : β)
    (e : ReadExc) (h : read f = Except.error e) :
    ∀ pre : List β, (∀ g ∈ pre, ∃ v, read g = Except.ok v) →
      ∀ post, iterate_files_reads read (pre ++ f :: post) = Except.error e := by
  intro pre
  induction pre with
  | nil =>
      intro _ post
      simp [iterate_files_reads, read_image_try, h]
  | cons g rest ih =>
      intro hpre post
      obtain ⟨v, hv⟩ := hpre g (by simp)
      have hrest := ih (fun g2 hg2 => hpre g2 (by simp [hg2])) post
      simp [iterate_files_reads, read_image_try, hv, hrest, Except.map]

/-- Claim C8: a failing read (`ValueError` or `OSError` from
`tifffile.imread`) is logged and then re-raised unchanged to the caller,
aborting the whole iteration; it is never swallowed, converted into a
success, or skipped in favor of the next file. -/
theorem read_image_logs_and_reraises {α β : Type} (read : β → Except ReadExc α)
    (f : β) (e : ReadExc) (h : read f = Except.error e) :
    ((read_image_try (read f)).logged = true ∧
      (read_image_try (read f)).result = Except.error e) ∧
    (∀ pre post, (∀ g ∈ pre, ∃ v, read g = Except.ok v) →
      iterate_files_reads read (pre ++ f :: post) = Except.error e) := by
  constructor
  · rw [h]
    exact ⟨rfl, rfl⟩
  · intro pre post hpre
    exact iterate_reads_abort read f e h pre hpre post

theorem read_image_logs_and_reraises_witness :
    ((read_image_try ((fun s : String =>
        if s = "bad.tif" then Except.error ReadExc.osError
        else Except.ok (0 : Nat)) "bad.tif")).logged = true ∧
      (read_image_try ((fun s : String =>
        if s = "bad.tif" then Except.error ReadExc.osError
        else Except.ok (0 : Nat)) "bad.tif")).result = Except.error ReadExc.osError) ∧
    iterate_files_reads (fun s : String =>
        if s = "bad.tif" then Except.error ReadExc.osError
        else Except.ok (0 : Nat)) ["a.tif", "bad.tif", "c.tif"] =
      Except.error ReadExc.osError := by
  have h := read_image_logs_and_reraises
    (fun s : String => if s = "bad.tif" then Except.error ReadExc.osError
      else Except.ok (0 : Nat)) "bad.tif" ReadExc.osError (by simp)
  exact ⟨h.1, h.2 ["a.tif"] ["c.tif"]
    (by intro g hg; refine ⟨0, ?_⟩; simp at hg; simp [hg])⟩

/-- Claim C10: `read_image` squeezes singleton axes away before comparing
the axis-descriptor length with the array rank, so an array whose stored
rank matches the descriptor but contains a size-1 axis is rejected with the
axes-length (dimensionality-mismatch) error; independently, any array whose
squeezed rank falls outside 2..4 is rejected with the data-dimensions
error, whatever the descriptor. -/
theorem read_image_squeeze_checks (axes : List Char) (shape : List Nat) :
    (axes.length = shape.length → 1 ∈ shape →
      2 ≤ (npSqueeze shape).length → (npSqueeze shape).length ≤ 4 →
      read_image_shape axes shape = Except.error ShapeErr.axesLenMismatch) ∧
    ((npSqueeze shape).length < 2 ∨ 4 < (npSqueeze shape).length →
      read_image_shape axes shape = Except.error ShapeErr.dimMismatch) := by
  constructor
  · intro hlen hone h2 h4
    have hlt : (npSqueeze shape).length < shape.length := by
      unfold npSqueeze
      exact List.length_filter_lt_length_iff_exists.mpr ⟨1, hone, by simp⟩
    unfold read_image_shape
    rw [if_neg (by omega), if_pos (by omega)]
  · intro hd
    unfold read_image_shape
    rw [if_pos hd]

theorem read_image_squeeze_checks_witness :
    read_image_shape ['C', 'Y', 'X'] [1, 8, 8] = Except.error ShapeErr.axesLenMismatch ∧
    read_image_shape ['C', 'Y', 'X'] [1, 1, 5] = Except.error ShapeErr.dimMismatch :=
  ⟨(read_image_squeeze_checks ['C', 'Y', 'X'] [1, 8, 8]).1
      (by decide) (by decide) (by decide) (by decide),
    (read_image_squeeze_checks ['C', 'Y', 'X'] [1, 1, 5]).2 (by decide)⟩

/-- Claim C3 (code bug): `fix_axes` on a `"TYX"` array of shape
`(10, 8, 8)` returns shape `(10, 8, 8)` — a rank-3 result with no
synthesized channel axis — although the method's own comment promises an
`NCZYX` result and the spec requires `(10, 1, 8, 8)`. -/
theorem fix_axes_tyx_no_channel :
    fix_axes ['T', 'Y', 'X'] [10, 8, 8] = [10, 8, 8] ∧
    (fix_axes ['T', 'Y', 'X'] [10, 8, 8]).length = 3 ∧
    fix_axes ['Y', 'X'] [8, 8] = [1, 8, 8] ∧
    (fix_axes ['Y', 'X'] [8, 8]).length = 3 := by
  refine ⟨by decide, by decide, by decide, by decide⟩

/-- Claim C6 (code bug): the statistics loop iterates the attribute
`iterate_path`, which is not among the members of `TiffDataset`, so
`calculate_mean_and_std` raises `AttributeError` instead of returning the
arithmetic average of per-image means and of per-image standard
deviations; with the loop source resolvable, the very same arithmetic
would return those averages (here `(2+4)/2 = 3` and `(1+3)/2 = 2`). -/
theorem calculate_mean_and_std_attribute_error :
    calculate_mean_and_std tiffDatasetMembers [(2, 1), (4, 3)] =
      Except.error IterErr.attributeError ∧
    tiffDatasetMembers.contains statsIterSource = false ∧
    calculate_mean_and_std (statsIterSource :: tiffDatasetMembers) [(2, 1), (4, 3)] =
      Except.ok (3, 2) := by
  refine ⟨by rfl, by decide, ?_⟩
  unfold calculate_mean_and_std
  rw [if_pos (List.mem_cons_self _ _)]
  norm_num

theorem seqTiles1_cover (n k x : Nat) (hk : 1 ≤ k) (hkn : k ≤ n) (hx : x < n) :
    ∃ ab ∈ seqTiles1 n k, ab.1 ≤ x ∧ x < ab.2 := by
  refine ⟨(seqStart n k (x / k), seqStart n k (x / k) + k),
    List.mem_map.mpr ⟨x / k, List.mem_range.mpr ?_, rfl⟩, ?_, ?_⟩
  · unfold numTiles
    have h1 : n + k - 1 = (n - 1) + k := by omega
    rw [h1, Nat.add_div_right _ (by omega : 0 < k)]
    exact Nat.lt_succ_of_le (Nat.div_le_div_right (by omega))
  · exact le_trans (min_le_left _ _) (Nat.div_mul_le_self x k)
  · unfold seqStart
    have e1 := Nat.div_add_mod x k
    have e2 : x % k < k := Nat.mod_lt x (by omega)
    have e3 : x / k * k = k * (x / k) := Nat.mul_comm _ _
    omega

theorem seq_tiles_cover : ∀ (shape ks p : List Nat),
    validSpec shape ks = true → inBounds p shape = true →
    ∃ tile ∈ axisProd (seqTileLists shape ks), inTile tile p = true := by
  intro shape
  induction shape with
  | nil =>
      intro ks p hv hp
      cases ks with
      | cons k ks2 => simp [validSpec] at hv
      | nil =>
          cases p with
          | cons a l => simp [inBounds] at hp
          | nil => exact ⟨[], by simp [seqTileLists, axisProd], rfl⟩
  | cons n ns ih =>
      intro ks p hv hp
      cases ks with
      | nil => simp [validSpec] at hv
      | cons k ks2 =>
          cases p with
          | nil => simp [inBounds] at hp
          | cons x xs =>
              obtain ⟨⟨hk1, hkn⟩, hvrest⟩ : (1 ≤ k ∧ k ≤ n) ∧ validSpec ns ks2 = true := by
                simpa [validSpec, Bool.and_eq_true] using hv
              obtain ⟨hx, hprest⟩ : x < n ∧ inBounds xs ns = true := by
                simpa [inBounds, Bool.and_eq_true] using hp
              obtain ⟨ab, habmem, hab1, hab2⟩ := seqTiles1_cover n k x hk1 hkn hx
              obtain ⟨tile, htmem, htin⟩ := ih ks2 xs hvrest hprest
              refine ⟨ab :: tile, ?_, ?_⟩
              · show ab :: tile ∈ axisProd (seqTiles1 n k :: seqTileLists ns ks2)
                exact List.mem_flatMap.mpr ⟨ab, habmem,
                  List.mem_map.mpr ⟨tile, htmem, rfl⟩⟩
              · simp [inTile, hab1, hab2, htin]

/-- Claim C1: for every image and every valid sequential-mode patch
specification, every pixel of every sample is covered by at least one
yielded patch (union of patch footprints covers the image). -/
theorem extract_patches_sequential_covers (numSamples : Nat) (shape ks : List Nat)
    (hv : validSpec shape ks = true) (s : Nat) (hs : s < numSamples)
    (p : List Nat) (hp : inBounds p shape = true) :
    ∃ pr ∈ extract_patches_sequential numSamples shape ks,
      pr.1 = s ∧ inTile pr.2 p = true := by
  obtain ⟨tile, htmem, htin⟩ := seq_tiles_cover shape ks p hv hp
  refine ⟨(s, tile), ?_, rfl, htin⟩
  unfold extract_patches_sequential
  exact List.mem_flatMap.mpr ⟨s, List.mem_range.mpr hs,
    List.mem_map.mpr ⟨tile, htmem, rfl⟩⟩

theorem extract_patches_sequential_covers_witness :
    (∃ pr ∈ extract_patches_sequential 1 [8, 8] [4, 4],
        pr.1 = 0 ∧ inTile pr.2 [7, 2] = true) ∧
    (extract_patches_sequential 1 [8, 8] [4, 4]).length = 4 ∧
    (∀ pr ∈ extract_patches_sequential 1 [8, 8] [4, 4], patchShape 1 pr.2 = [1, 4, 4]) ∧
    ((List.range 8).all (fun y => (List.range 8).all (fun x =>
        (extract_patches_sequential 1 [8, 8] [4, 4]).any
          (fun pr => inTile pr.2 [y, x])))) = true :=
  ⟨extract_patches_sequential_covers 1 [8, 8] [4, 4] (by decide) 0 (by decide)
      [7, 2] (by decide),
    by decide, by decide, by decide⟩

theorem numTiles_spec (n k : Nat) (hk : 1 ≤ k) (hkn : k ≤ n) :
    n ≤ numTiles n k * k ∧ numTiles n k * k < n + k ∧ 1 ≤ numTiles n k := by
  have h3 : 1 ≤ numTiles n k := by
    unfold numTiles
    rw [Nat.one_le_div_iff (by omega)]
    omega
  have e1 := Nat.div_add_mod (n + k - 1) k
  have e2 : (n + k - 1) % k < k := Nat.mod_lt _ (by omega)
  have e3 : numTiles n k * k = k * ((n + k - 1) / k) := Nat.mul_comm _ _
  exact ⟨by omega, by omega, h3⟩

theorem bnd_zero (n k : Nat) : bnd n k 0 = 0 := rfl

theorem bnd_last (n k : Nat) (h : 1 ≤ numTiles n k) : bnd n k (numTiles n k) = n := by
  unfold bnd
  rw [if_neg (by omega), if_pos (le_refl _)]

theorem bnd_mono (n k : Nat) (hk : 1 ≤ k) (hkn : k ≤ n) :
    ∀ i, i < numTiles n k → bnd n k i < bnd n k (i + 1) := by
  intro i hi
  obtain ⟨ht1, ht2, ht3⟩ := numTiles_spec n k hk hkn
  have hsm : (i + 1) * k = i * k + k := Nat.succ_mul i k
  by_cases hlast : i + 1 = numTiles n k
  · have hb2 : bnd n k (i + 1) = n := by rw [hlast]; exact bnd_last n k ht3
    rw [hb2]
    by_cases h0 : i = 0
    · rw [h0, bnd_zero]
      omega
    · unfold bnd
      rw [if_neg h0, if_neg (by omega)]
      unfold seqStart
      omega
  · have hlt : (i + 1) * k < n := by
      have h1 : (i + 1) * k ≤ (numTiles n k - 1) * k := Nat.mul_le_mul_right k (by omega)
      have h2 : (numTiles n k - 1) * k = numTiles n k * k - k := Nat.sub_one_mul _ _
      omega
    have hb2 : bnd n k (i + 1) = seqStart n k (i + 1) := by
      unfold bnd
      rw [if_neg (by omega), if_neg (by omega)]
    rw [hb2]
    by_cases h0 : i = 0
    · rw [h0, bnd_zero]
      rw [h0] at hsm hlt
      unfold seqStart
      have hz : 0 * k = 0 := Nat.zero_mul k
      omega
    · have hb1 : bnd n k i = seqStart n k i := by
        unfold bnd
        rw [if_neg h0, if_neg (by omega)]
      rw [hb1]
      unfold seqStart
      omega

theorem chained_append (l1 : List (Nat × Nat)) :
    ∀ (l2 : List (Nat × Nat)) (lo mid hi : Nat),
      chained lo l1 mid → chained mid l2 hi → chained lo (l1 ++ l2) hi := by
  induction l1 with
  | nil =>
      intro l2 lo mid hi h1 h2
      simp only [chained] at h1
      rw [List.nil_append, h1]
      exact h2
  | cons ab rest ih =>
      intro l2 lo mid hi h1 h2
      simp only [chained] at h1
      obtain ⟨ha, hb, hc⟩ := h1
      exact ⟨ha, hb, ih l2 ab.2 mid hi hc h2⟩

theorem chained_count_zero (x : Nat) :
    ∀ (l : List (Nat × Nat)) (lo hi : Nat), chained lo l hi → x < lo →
      l.countP (fun ab => decide (ab.1 ≤ x) && decide (x < ab.2)) = 0 := by
  intro l
  induction l with
  | nil => intro lo hi _ _; rfl
  | cons ab rest ih =>
      intro lo hi hch hx
      simp only [chained] at hch
      obtain ⟨h1, h2, h3⟩ := hch
      rw [List.countP_cons, ih ab.2 hi h3 (by omega), if_neg (by simp; omega)]

theorem chained_count_one (x : Nat) :
    ∀ (l : List (Nat × Nat)) (lo hi : Nat), chained lo l hi → lo ≤ x → x < hi →
      l.countP (fun ab => decide (ab.1 ≤ x) && decide (x < ab.2)) = 1 := by
  intro l
  induction l with
  | nil =>
      intro lo hi hch h1 h2
      simp only [chained] at hch
      omega
  | cons ab rest ih =>
      intro lo hi hch hlo hhi
      simp only [chained] at hch
      obtain ⟨h1, h2, h3⟩ := hch
      by_cases hx2 : x < ab.2
      · rw [List.countP_cons, chained_count_zero x rest ab.2 hi h3 hx2,
          if_pos (by simp; omega)]
      · rw [List.countP_cons, ih ab.2 hi h3 (by omega) hhi, if_neg (by simp; omega)]

theorem chained_map_range (f : Nat → Nat) :
    ∀ t : Nat, (∀ i, i < t → f i < f (i + 1)) →
      chained (f 0) ((List.range t).map (fun i => (f i, f (i + 1)))) (f t) := by
  intro t
  induction t with
  | zero => intro _; exact rfl
  | succ m ih =>
      intro h
      rw [List.range_succ, List.map_append]
      refine chained_append _ _ (f 0) (f m) (f (m + 1))
        (ih (fun i hi => h i (by omega))) ?_
      exact ⟨rfl, h m (by omega), rfl⟩

theorem predictTiles1_count (n k o x : Nat) (hk : 1 ≤ k) (hkn : k ≤ n) (hx : x < n) :
    (predictTiles1 n k o).countP (hits1 x) = 1 := by
  obtain ⟨ht1, ht2, ht3⟩ := numTiles_spec n k hk hkn
  have hch : chained (bnd n k 0) ((List.range (numTiles n k)).map
      (fun i => (bnd n k i, bnd n k (i + 1)))) (bnd n k (numTiles n k)) :=
    chained_map_range (bnd n k) (numTiles n k) (bnd_mono n k hk hkn)
  have hcount := chained_count_one x _ _ _ hch
    (by rw [bnd_zero]; omega) (by rw [bnd_last n k ht3]; exact hx)
  rw [List.countP_map] at hcount
  unfold predictTiles1
  rw [List.countP_map]
  exact hcount

theorem countP_map_cons (rest : List (List Tile1)) (a : Tile1) (x : Nat) (xs : List Nat) :
    ((axisProd rest).map (fun t => a :: t)).countP (fun ts => inInterior ts (x :: xs)) =
      if hits1 x a = true then (axisProd rest).countP (fun ts => inInterior ts xs)
      else 0 := by
  rw [List.countP_map]
  by_cases h : hits1 x a = true
  · rw [if_pos h]
    have hfun : ((fun ts => inInterior ts (x :: xs)) ∘ (fun t => a :: t)) =
        (fun ts => inInterior ts xs) := by
      funext ts
      simp [Function.comp, inInterior, h]
    rw [hfun]
  · rw [if_neg h]
    have hfalse : hits1 x a = false := Bool.eq_false_iff.mpr h
    have hfun : ((fun ts : List Tile1 => inInterior ts (x :: xs)) ∘ (fun t => a :: t)) =
        (fun ts => false) := by
      funext ts
      simp [Function.comp, inInterior, hfalse]
    rw [hfun, List.countP_false]
    rfl

theorem sum_map_ite (c : Tile1 → Bool) (R : Nat) :
    ∀ l : List Tile1,
      (l.map (fun a => if c a = true then R else 0)).sum = l.countP c * R := by
  intro l
  induction l with
  | nil => simp
  | cons a l2 ih =>
      rw [List.map_cons, List.sum_cons, ih, List.countP_cons]
      by_cases h : c a = true
      · rw [if_pos h, if_pos h]
        ring
      · rw [if_neg h, if_neg h]
        ring

theorem countP_axisProd_cons (l : List Tile1) (rest : List (List Tile1))
    (x : Nat) (xs : List Nat) :
    (axisProd (l :: rest)).countP (fun ts => inInterior ts (x :: xs)) =
      l.countP (hits1 x) * (axisProd rest).countP (fun ts => inInterior ts xs) := by
  show (l.flatMap (fun a => (axisProd rest).map (fun t => a :: t))).countP
      (fun ts => inInterior ts (x :: xs)) = _
  rw [List.countP_flatMap]
  have hmap : (l.map (List.countP (fun ts => inInterior ts (x :: xs)) ∘
      (fun a => (axisProd rest).map (fun t => a :: t)))) =
      (l.map (fun a => if hits1 x a = true then
        (axisProd rest).countP (fun ts => inInterior ts xs) else 0)) := by
    refine List.map_congr_left ?_
    intro a _
    exact countP_map_cons rest a x xs
  rw [hmap, sum_map_ite (hits1 x) ((axisProd rest).countP (fun ts => inInterior ts xs)) l]

theorem predict_writers_one : ∀ (shape ks os p : List Nat),
    validSpec shape ks = true → overlapOk os ks = true → inBounds p shape = true →
    (axisProd (predTileLists shape ks os)).countP (fun ts => inInterior ts p) = 1 := by
  intro shape
  induction shape with
  | nil =>
      intro ks os p hv ho hp
      cases ks with
      | cons k ks2 => simp [validSpec] at hv
      | nil =>
          cases p with
          | cons a l => simp [inBounds] at hp
          | nil => rfl
  | cons n ns ih =>
      intro ks os p hv ho hp
      cases ks with
      | nil => simp [validSpec] at hv
      | cons k ks2 =>
          cases os with
          | nil => simp [overlapOk] at ho
          | cons o os2 =>
              cases p with
              | nil => simp [inBounds] at hp
              | cons x xs =>
                  obtain ⟨⟨hk1, hkn⟩, hvrest⟩ :
                      (1 ≤ k ∧ k ≤ n) ∧ validSpec ns ks2 = true := by
                    simpa [validSpec, Bool.and_eq_true] using hv
                  obtain ⟨hok, horest⟩ : o < k ∧ overlapOk os2 ks2 = true := by
                    simpa [overlapOk, Bool.and_eq_true] using ho
                  obtain ⟨hx, hprest⟩ : x < n ∧ inBounds xs ns = true := by
                    simpa [inBounds, Bool.and_eq_true] using hp
                  show (axisProd (predictTiles1 n k o :: predTileLists ns ks2 os2)).countP
                      (fun ts => inInterior ts (x :: xs)) = 1
                  rw [countP_axisProd_cons, predictTiles1_count n k o x hk1 hkn hx,
                    ih ks2 os2 xs hvrest horest hprest]

theorem axisProd_mem_forall {β : Type} :
    ∀ (ls : List (List β)) (ts : List β), ts ∈ axisProd ls →
      ∀ b ∈ ts, ∃ l ∈ ls, b ∈ l := by
  intro ls
  induction ls with
  | nil =>
      intro ts hts b hb
      simp [axisProd] at hts
      subst hts
      simp at hb
  | cons l rest ih =>
      intro ts hts b hb
      rw [show axisProd (l :: rest) =
          l.flatMap (fun a => (axisProd rest).map (fun t => a :: t)) from rfl] at hts
      obtain ⟨a, ha, hmap⟩ := List.mem_flatMap.mp hts
      obtain ⟨t2, ht2, heq⟩ := List.mem_map.mp hmap
      subst heq
      rcases List.mem_cons.mp hb with hb1 | hb2
      · exact ⟨l, List.mem_cons_self _ _, hb1 ▸ ha⟩
      · obtain ⟨l2, hl2, hbl2⟩ := ih t2 ht2 b hb2
        exact ⟨l2, List.mem_cons_of_mem _ hl2, hbl2⟩

theorem predTileLists_mem : ∀ (shape ks os : List Nat) (l : List Tile1),
    l ∈ predTileLists shape ks os → ∃ n2 k2 o2, l = predictTiles1 n2 k2 o2 := by
  intro shape
  induction shape with
  | nil =>
      intro ks os l hl
      simp [predTileLists] at hl
  | cons n ns ih =>
      intro ks os l hl
      cases ks with
      | nil => simp [predTileLists] at hl
      | cons k ks2 =>
          cases os with
          | nil => simp [predTileLists] at hl
          | cons o os2 =>
              rcases List.mem_cons.mp hl with h1 | h2
              · exact ⟨n, k, o, h1⟩
              · exact ih ks2 os2 l h2

theorem predictTiles1_patchLo_le (n k o : Nat) :
    ∀ ti ∈ predictTiles1 n k o, ti.patchLo ≤ ti.intLo := by
  intro ti hti
  unfold predictTiles1 at hti
  obtain ⟨i, hir, heq⟩ := List.mem_map.mp hti
  have hi : i < numTiles n k := List.mem_range.mp hir
  subst heq
  show seqStart n k i - (if i = 0 then 0 else o) ≤ bnd n k i
  by_cases h0 : i = 0
  · subst h0
    rw [if_pos rfl, bnd_zero]
    unfold seqStart
    have hz : 0 * k = 0 := Nat.zero_mul k
    omega
  · rw [if_neg h0]
    unfold bnd
    rw [if_neg h0, if_neg (by omega)]
    omega

theorem write_value_eq : ∀ (ts : List Tile1) (p : List Nat),
    inInterior ts p = true → (∀ ti ∈ ts, ti.patchLo ≤ ti.intLo) →
    List.zipWith (fun ti l => ti.patchLo + l) ts (localIndex ts p) = p := by
  intro ts
  induction ts with
  | nil =>
      intro p hin _
      cases p with
      | nil => rfl
      | cons a l => simp [inInterior] at hin
  | cons ti ts2 ih =>
      intro p hin hlo
      cases p with
      | nil => simp [inInterior] at hin
      | cons x xs =>
          obtain ⟨h1, h2⟩ : hits1 x ti = true ∧ inInterior ts2 xs = true := by
            simpa [inInterior, Bool.and_eq_true] using hin
          obtain ⟨hxl, hxr⟩ : ti.intLo ≤ x ∧ x < ti.intHi := by
            simpa [hits1, Bool.and_eq_true] using h1
          have hpl : ti.patchLo ≤ ti.intLo := hlo ti (List.mem_cons_self _ _)
          have hrest := ih xs h2 (fun ti2 hti2 => hlo ti2 (List.mem_cons_of_mem _ hti2))
          show (ti.patchLo + (x - ti.patchLo)) ::
            List.zipWith (fun t2 l => t2.patchLo + l) ts2 (localIndex ts2 xs) = x :: xs
          rw [hrest]
          congr 1
          omega

theorem stitch_fold_none {α : Type} (p : List Nat) :
    ∀ (pts : List (PredPatch α)) (c : List Nat → Option α),
      (∀ pt ∈ pts, inInterior pt.tiles p = false) →
      List.foldl writePatch c pts p = c p := by
  intro pts
  induction pts with
  | nil => intro c _; rfl
  | cons pt rest ih =>
      intro c hall
      rw [List.foldl_cons,
        ih (writePatch c pt) (fun q hq => hall q (List.mem_cons_of_mem _ hq))]
      unfold writePatch
      rw [if_neg (by rw [hall pt (List.mem_cons_self _ _)]; simp)]

theorem stitch_fold_some {α : Type} (p : List Nat) (v : α) :
    ∀ (pts : List (PredPatch α)) (c : List Nat → Option α),
      (∀ pt ∈ pts, inInterior pt.tiles p = true → pt.data (localIndex pt.tiles p) = v) →
      (∃ pt ∈ pts, inInterior pt.tiles p = true) →
      List.foldl writePatch c pts p = some v := by
  intro pts
  induction pts with
  | nil =>
      intro c _ hex
      simp at hex
  | cons pt rest ih =>
      intro c hall hex
      rw [List.foldl_cons]
      by_cases hb : rest.any (fun q => inInterior q.tiles p) = true
      · obtain ⟨q, hq, hqt⟩ := List.any_eq_true.mp hb
        exact ih (writePatch c pt)
          (fun q2 hq2 => hall q2 (List.mem_cons_of_mem _ hq2)) ⟨q, hq, hqt⟩
      · have hf : rest.any (fun q => inInterior q.tiles p) = false :=
          Bool.eq_false_iff.mpr hb
        have hrest : ∀ q ∈ rest, inInterior q.tiles p = false := by
          intro q hq
          exact Bool.eq_false_iff.mpr ((List.any_eq_false.mp hf) q hq)
        rw [stitch_fold_none p rest (writePatch c pt) hrest]
        have hpt : inInterior pt.tiles p = true := by
          obtain ⟨q, hq, hqt⟩ := hex
          rcases List.mem_cons.mp hq with hq1 | hq2
          · exact hq1 ▸ hqt
          · exact absurd hqt (by rw [hrest q hq2]; simp)
        unfold writePatch
        rw [if_pos hpt, hall pt (List.mem_cons_self _ _) hpt]

/-- Claim C2: for every image, every valid predict-mode patch specification
and every overlap with `0 ≤ o < k` per spatial axis, stitching the
predict-mode patches back into a canvas of the image's shape reproduces the
image exactly, and every canvas pixel is written by exactly one patch. -/
theorem stitch_extract_predict_roundtrip {α : Type} (image : List Nat → α)
    (shape ks os : List Nat) (hv : validSpec shape ks = true)
    (ho : overlapOk os ks = true) (p : List Nat) (hp : inBounds p shape = true) :
    stitch (extract_patches_predict image shape ks os) p = some (image p) ∧
    writersCount (extract_patches_predict image shape ks os) p = 1 := by
  have hcnt : writersCount (extract_patches_predict image shape ks os) p = 1 := by
    unfold writersCount extract_patches_predict
    rw [List.countP_map]
    exact predict_writers_one shape ks os p hv ho hp
  refine ⟨?_, hcnt⟩
  have hex : ∃ pt ∈ extract_patches_predict image shape ks os,
      inInterior pt.tiles p = true := by
    refine List.countP_pos_iff.mp ?_
    rw [show (extract_patches_predict image shape ks os).countP
        (fun pt => inInterior pt.tiles p) =
        writersCount (extract_patches_predict image shape ks os) p from rfl, hcnt]
    omega
  have hall : ∀ pt ∈ extract_patches_predict image shape ks os,
      inInterior pt.tiles p = true → pt.data (localIndex pt.tiles p) = image p := by
    intro pt hpt hin
    unfold extract_patches_predict at hpt
    obtain ⟨ts, hts, heq⟩ := List.mem_map.mp hpt
    subst heq
    show image (List.zipWith (fun ti l => ti.patchLo + l) ts (localIndex ts p)) = image p
    congr 1
    refine write_value_eq ts p hin ?_
    intro ti hti
    obtain ⟨l, hl, hml⟩ := axisProd_mem_forall (predTileLists shape ks os) ts hts ti hti
    obtain ⟨n2, k2, o2, rfl⟩ := predTileLists_mem shape ks os l hl
    exact predictTiles1_patchLo_le n2 k2 o2 ti hml
  exact stitch_fold_some p (image p) (extract_patches_predict image shape ks os)
    (fun _ => none) hall hex

theorem stitch_extract_predict_roundtrip_witness :
    stitch (extract_patches_predict
        (fun q => q.foldl (fun a b => 10 * a + b) 7) [5, 4] [3, 2] [1, 1]) [4, 1] =
      some ((fun q : List Nat => q.foldl (fun a b => 10 * a + b) 7) [4, 1]) ∧
    writersCount (extract_patches_predict
        (fun q => q.foldl (fun a b => 10 * a + b) 7) [5, 4] [3, 2] [1, 1]) [4, 1] = 1 :=
  stitch_extract_predict_roundtrip (fun q => q.foldl (fun a b => 10 * a + b) 7)
    [5, 4] [3, 2] [1, 1] (by decide) (by decide) [4, 1] (by decide)
